import Mathlib

set_option allowUnsafeReducibility true
attribute [local semireducible] Rat.add Rat.mul Rat.sub Rat.inv

/-!
Verification of the reposearch core against its source.

The definitions below are a shallow embedding of the Go sources:
  - internal/indexer (processWorkItem, naiveChunk, summarizeHeuristic,
    chunkID, hashContent, guessLang, rel)
  - internal/store (UpsertChunk, GetChunkMeta, the Search scoring SQL)
  - internal/ai (StubClient, the Client contract)
  - internal/search (Service.Query)
  - cmd/api (the output mapping with its non-finite score clamp)

Machine integers are modelled as Nat with explicit reduction mod 2^32
where the SHA-1 compression function needs it.  Byte strings are lists of
Nat (each < 256).  SQL numeric values are modelled as rationals; float64
values that can be NaN or infinite are modelled by an explicit variant
type.  External engines (PostgreSQL cosine distance, ts_rank_cd, pg_trgm
similarity) enter as oracle inputs; their documented ranges appear as
hypotheses where a claim needs them.
-/

namespace RepoSearch

/-! ### Basic string helpers (Go strings package semantics, ASCII inputs) -/

/-- True when `needle` is a leading run of `hay`. -/
def listHasPre : List Char → List Char → Bool
  | [], _ => true
  | _ :: _, [] => false
  | a :: as, b :: bs => a == b && listHasPre as bs

/-- Substring containment on char lists, mirroring Go `strings.Contains`. -/
def listContains (hay needle : List Char) : Bool :=
  match hay with
  | [] => needle.isEmpty
  | _ :: rest => listHasPre needle hay || listContains rest needle

/-- Go `strings.Contains hay needle`. -/
def strContains (hay needle : String) : Bool :=
  listContains hay.data needle.data

/-- First `n` characters of a string (Go slicing counts bytes; all inputs the
claims exercise are ASCII, where bytes and characters coincide). -/
def strTake (s : String) (n : Nat) : String :=
  String.mk (s.data.take n)

/-- All but the first `n` characters. -/
def strDrop (s : String) (n : Nat) : String :=
  String.mk (s.data.drop n)

/-- Character count (Go `len` counts bytes; they coincide on ASCII). -/
def strLen (s : String) : Nat := s.data.length

/-- Go `strings.HasPrefix`. -/
def strStartsWith (s p : String) : Bool := listHasPre p.data s.data

/-- The white-space class of Go `unicode.IsSpace` restricted to Latin-1,
which is all the sources ever feed it. -/
def isSpaceChar (c : Char) : Bool :=
  c == ' ' || c == '\t' || c == '\n' || c == '\r' ||
    c.toNat == 11 || c.toNat == 12 || c.toNat == 133 || c.toNat == 160

/-- Go `strings.TrimSpace`. -/
def trimSpace (s : String) : String :=
  String.mk ((s.data.dropWhile isSpaceChar).reverse.dropWhile isSpaceChar).reverse

/-- ASCII lowercasing of one character (the sources only ever lowercase
ASCII identifiers, extensions and queries). -/
def lowerChar (c : Char) : Char :=
  if 65 ≤ c.toNat ∧ c.toNat ≤ 90 then Char.ofNat (c.toNat + 32) else c

/-- Go `strings.ToLower`. -/
def strToLower (s : String) : String := String.mk (s.data.map lowerChar)

/-- Splitting accumulator for `strings.Split(s, "\n")`. -/
def splitNlAux : List Char → List Char → List String
  | [], acc => [String.mk acc.reverse]
  | c :: rest, acc =>
      if c == '\n' then String.mk acc.reverse :: splitNlAux rest []
      else splitNlAux rest (c :: acc)

/-- Go `strings.Split(s, "\n")`. -/
def splitLines (s : String) : List String := splitNlAux s.data []

/-- Decimal digits accumulator (fuel keeps the recursion structural). -/
def natDigits : Nat → Nat → List Char → List Char
  | 0, _, acc => acc
  | fuel + 1, n, acc =>
      if n = 0 then acc
      else natDigits fuel (n / 10) (Char.ofNat (48 + n % 10) :: acc)

/-- Decimal rendering of a Nat, as Go `fmt.Sprintf("%d", i)` on the
non-negative line numbers the indexer produces. -/
def natToStr (n : Nat) : String :=
  if n = 0 then "0" else String.mk (natDigits (n + 1) n [])

/-- Number of newline characters, `strings.Count(content, "\n")` for the
one-character separator. -/
def countNewlines (s : String) : Nat :=
  s.data.count '\n'

/-! ### SHA-1 (crypto/sha1), over Nat bytes -/

/-- Reduce mod 2^32. -/
def w32 (n : Nat) : Nat := n % 4294967296

/-- Left rotation of a 32-bit word by `k` (0 < k < 32). -/
def rotl (k n : Nat) : Nat :=
  (n % 2 ^ (32 - k)) * 2 ^ k + n / 2 ^ (32 - k)

/-- UTF-8 bytes of one code point. -/
def charUtf8 (c : Char) : List Nat :=
  let n := c.toNat
  if n < 128 then [n]
  else if n < 2048 then [192 + n / 64, 128 + n % 64]
  else if n < 65536 then [224 + n / 4096, 128 + (n / 64) % 64, 128 + n % 64]
  else [240 + n / 262144, 128 + (n / 4096) % 64, 128 + (n / 64) % 64, 128 + n % 64]

/-- UTF-8 encoding of a string as a byte list. -/
def utf8Bytes (s : String) : List Nat :=
  s.data.flatMap charUtf8

/-- Big-endian bytes of `v`, `k` bytes wide. -/
def beBytes : Nat → Nat → List Nat
  | 0, _ => []
  | k + 1, v => beBytes k (v / 256) ++ [v % 256]

/-- SHA-1 padding: append 0x80, zeros to 56 mod 64, then the 64-bit
big-endian bit length. -/
def padMessage (msg : List Nat) : List Nat :=
  let len := msg.length
  msg ++ [128] ++ List.replicate ((119 - len % 64) % 64) 0 ++ beBytes 8 (8 * len)

/-- Group bytes into big-endian 32-bit words. -/
def bytesToWords : List Nat → List Nat
  | b0 :: b1 :: b2 :: b3 :: rest =>
      (((b0 * 256 + b1) * 256 + b2) * 256 + b3) :: bytesToWords rest
  | _ => []

/-- Split a word list into 16-word blocks (structural recursion on a fuel
bound so the kernel can evaluate it). -/
def toBlocksAux : Nat → List Nat → List (List Nat)
  | 0, _ => []
  | _, [] => []
  | f + 1, w :: ws => (w :: ws).take 16 :: toBlocksAux f ((w :: ws).drop 16)

/-- Split a word list into 16-word blocks. -/
def toBlocks (ws : List Nat) : List (List Nat) :=
  toBlocksAux ws.length ws

/-- Message-schedule extension; `rev` holds the words produced so far, most
recent first. -/
def extendWords : Nat → List Nat → List Nat
  | 0, rev => rev.reverse
  | f + 1, rev =>
      let a := rev.getD 2 0
      let b := rev.getD 7 0
      let c := rev.getD 13 0
      let d := rev.getD 15 0
      extendWords f (rotl 1 (((a ^^^ b) ^^^ c) ^^^ d) :: rev)

/-- The 80-word schedule of one block. -/
def scheduleOf (block : List Nat) : List Nat :=
  extendWords 64 block.reverse

/-- Round function of SHA-1. -/
def sha1F (i b c d : Nat) : Nat :=
  if i < 20 then (b &&& c) ||| ((4294967295 ^^^ b) &&& d)
  else if i < 40 then (b ^^^ c) ^^^ d
  else if i < 60 then ((b &&& c) ||| (b &&& d)) ||| (c &&& d)
  else (b ^^^ c) ^^^ d

/-- Round constants of SHA-1. -/
def sha1K (i : Nat) : Nat :=
  if i < 20 then 1518500249
  else if i < 40 then 1859775393
  else if i < 60 then 2400959708
  else 3395469782

/-- One compression round. -/
def roundStep (st : Nat × Nat × Nat × Nat × Nat) (iw : Nat × Nat) :
    Nat × Nat × Nat × Nat × Nat :=
  let (a, b, c, d, e) := st
  let (i, w) := iw
  (w32 (rotl 5 a + sha1F i b c d + e + sha1K i + w), a, rotl 30 b, c, d)

/-- Process one 16-word block. -/
def processBlock (h : Nat × Nat × Nat × Nat × Nat) (block : List Nat) :
    Nat × Nat × Nat × Nat × Nat :=
  let (h0, h1, h2, h3, h4) := h
  let (a, b, c, d, e) := (scheduleOf block).enum.foldl roundStep h
  (w32 (h0 + a), w32 (h1 + b), w32 (h2 + c), w32 (h3 + d), w32 (h4 + e))

/-- SHA-1 digest (20 bytes) of a byte message. -/
def sha1Digest (msg : List Nat) : List Nat :=
  let (a, b, c, d, e) :=
    (toBlocks (bytesToWords (padMessage msg))).foldl processBlock
      (1732584193, 4023233417, 2562383102, 271733878, 3285377520)
  beBytes 4 a ++ beBytes 4 b ++ beBytes 4 c ++ beBytes 4 d ++ beBytes 4 e

/-- Lowercase hex digit. -/
def hexDigitChar (n : Nat) : Char :=
  if n < 10 then Char.ofNat (48 + n) else Char.ofNat (87 + n)

/-- Two hex digits of a byte. -/
def byteHex (b : Nat) : List Char :=
  [hexDigitChar (b / 16), hexDigitChar (b % 16)]

/-- Hex string of a byte list. -/
def hexOf (bs : List Nat) : String :=
  String.mk (bs.map byteHex).flatten

/-- `hex.EncodeToString(sha1.Sum(s))` for a Go string. -/
def sha1Hex (s : String) : String :=
  hexOf (sha1Digest (utf8Bytes s))

/-! ### Data model (pkg/models and the chunks relation of store.Migrate) -/

/-- Embedding vectors (Go `[]float32`); only presence, length and zero-ness
matter to the claims, so components are rationals. -/
abbrev Vec := List ℚ

/-- models.Chunk, the transient record the indexer builds and upserts. -/
structure Chunk where
  id : String
  repository : String
  ref : String
  path : String
  language : String
  summary : String
  content : String
  lineStart : Nat
  lineEnd : Nat
  deriving DecidableEq, Repr

/-- One row of the `chunks` relation created by store.Migrate: the upsert
parameters plus the two timestamp columns (timestamps as Nat).  `id` is the
PRIMARY KEY; `(repository, ref, path, line_start, line_end)` carries the
unique index `chunks_repo_path_span_ref_uidx`. -/
structure Row where
  id : String
  repository : String
  ref : String
  path : String
  language : String
  summary : String
  content : String
  lineStart : Nat
  lineEnd : Nat
  summaryVec : Option Vec
  contentHash : String
  summarizedAt : Option Nat
  createdAt : Nat
  deriving DecidableEq, Repr

/-- The chunks table, in insertion order. -/
abbrev Table := List Row

/-- store.ChunkMeta. -/
structure ChunkMeta where
  contentHash : String
  summary : String
  hasSummaryVec : Bool
  deriving DecidableEq, Repr

/-- The zero value `store.ChunkMeta` left behind when GetChunkMeta fails. -/
def emptyMeta : ChunkMeta := { contentHash := "", summary := "", hasSummaryVec := false }

/-! ### Chunk store (unnamed/part_007, package store) -/

/-- Row predicate for the upsert conflict target
`(repository, ref, path, line_start, line_end)`. -/
def rowKeyMatches (c : Chunk) (r : Row) : Bool :=
  r.repository == c.repository && r.ref == c.ref && r.path == c.path &&
    r.lineStart == c.lineStart && r.lineEnd == c.lineEnd

/-- Row predicate for the GetChunkMeta lookup, which deliberately omits
`ref`. -/
def metaKeyMatches (repository path : String) (ls le : Nat) (r : Row) : Bool :=
  r.repository == repository && r.path == path &&
    r.lineStart == ls && r.lineEnd == le

/-- The `summarized_at` value the INSERT supplies:
`CASE WHEN $6 <> THE EMPTY STRING THEN now() ELSE NULL END`. -/
def excludedSummarizedAt (now : Nat) (c : Chunk) : Option Nat :=
  if c.summary = "" then none else some now

/-- The DO UPDATE SET clause of store.UpsertChunk: `language`, `content`
and `content_hash` are overwritten; `summary` via
`COALESCE(NULLIF(EXCLUDED.summary, ''), chunks.summary)`; `summarized_at`
via `COALESCE(EXCLUDED.summarized_at, chunks.summarized_at)`;
`summary_vec` via `COALESCE(EXCLUDED.summary_vec, chunks.summary_vec)`;
`created_at = chunks.created_at`.  Columns not listed keep the stored row
values. -/
def mergeRow (now : Nat) (r : Row) (c : Chunk) (vec : Option Vec) (hash : String) : Row :=
  { r with
    language := c.language
    content := c.content
    contentHash := hash
    summary := if c.summary = "" then r.summary else c.summary
    summarizedAt :=
      match excludedSummarizedAt now c with
      | some t => some t
      | none => r.summarizedAt
    summaryVec :=
      match vec with
      | some v => some v
      | none => r.summaryVec
    createdAt := r.createdAt }

/-- The VALUES row of the INSERT branch of store.UpsertChunk. -/
def insertRow (now : Nat) (c : Chunk) (vec : Option Vec) (hash : String) : Row :=
  { id := c.id, repository := c.repository, ref := c.ref, path := c.path,
    language := c.language, summary := c.summary, content := c.content,
    lineStart := c.lineStart, lineEnd := c.lineEnd, summaryVec := vec,
    contentHash := hash, summarizedAt := excludedSummarizedAt now c,
    createdAt := now }

/-- store.UpsertChunk.  The ON CONFLICT clause names only the five-column
unique index, so when the five-column key is absent but the `id`
PRIMARY KEY is already taken the INSERT raises a uniqueness error and the
table is unchanged. -/
def upsertChunkT (now : Nat) (st : Table) (c : Chunk) (vec : Option Vec)
    (hash : String) : Except Unit Table :=
  match st.find? (rowKeyMatches c) with
  | some _ => .ok (st.map fun r => if rowKeyMatches c r then mergeRow now r c vec hash else r)
  | none =>
      if st.any (fun r => r.id == c.id) then .error ()
      else .ok (st ++ [insertRow now c vec hash])

/-- store.GetChunkMeta: natural-key lookup without `ref`, LIMIT 1 (modelled
as the first row in table order); a missing row is `found = false`, not an
error. -/
def getChunkMetaT (st : Table) (repository path : String) (ls le : Nat) :
    ChunkMeta × Bool :=
  match st.find? (metaKeyMatches repository path ls le) with
  | some r =>
      ({ contentHash := r.contentHash, summary := r.summary,
         hasSummaryVec := r.summaryVec.isSome }, true)
  | none => (emptyMeta, false)

/-! ### Search scoring (the SQL of store.Search, lines 220-303) -/

/-- store.QueryOpts. -/
structure QueryOpts where
  repository : String
  ref : String
  language : String
  pathContains : String
  queryText : String
  deriving DecidableEq, Repr

/-- An all-empty QueryOpts value. -/
def emptyOpts : QueryOpts :=
  { repository := "", ref := "", language := "", pathContains := "", queryText := "" }

/-- `LEAST(GREATEST(x, 0), 1)`. -/
def clamp01 (x : ℚ) : ℚ := min (max x 0) 1

/-- The `askedForScript` nudge of store.Search: the lowercased query
contains any of the nine keywords. -/
def askedForScript (qtext : String) : Bool :=
  let lq := strToLower qtext
  strContains lq "script" || strContains lq "scripts" || strContains lq "bash" ||
    strContains lq "shell" || strContains lq "code" || strContains lq "program" ||
    strContains lq "programs" || strContains lq "python" || strContains lq "cli"

/-- A search candidate row together with the values the external engines
report for it: `lexRank` is the `ts_rank_cd` output, `triSim` the pg_trgm
`similarity(lower(path), tri_term)` output (`none` when the trigram term is
NULL), and `summaryVec` the stored vector (`none` when the column is
NULL). -/
structure SCand where
  language : String
  path : String
  summaryVec : Option Vec
  lexRank : ℚ
  triSim : Option ℚ
  deriving DecidableEq, Repr

/-- `sem_sim`: `LEAST(GREATEST(1.0 - cosine_distance(summary_vec, sv), 0), 1)`.
`cosd` is the external cosine-distance oracle.  A NULL stored vector makes
the distance NULL and the GREATEST/LEAST pair collapse to 0; an absent
query vector is treated the same way (the spec fixes `sem_sim = 0` for it,
and the engine computing the distance is outside the repository). -/
def semRaw (cosd : Vec → Vec → ℚ) (qv : Option Vec) (c : SCand) : ℚ :=
  match qv, c.summaryVec with
  | some v, some w => clamp01 (1 - cosd w v)
  | _, _ => 0

/-- `lex_sum`: `LEAST(GREATEST(ts_rank_cd(...), 0), 1)`. -/
def lexRaw (c : SCand) : ℚ := clamp01 c.lexRank

/-- `tri`: `COALESCE(similarity(lower(path), lower(tri_term)), 0)`. -/
def triRaw (c : SCand) : ℚ := c.triSim.getD 0

/-- `script_bias` CASE expression of the SQL. -/
def scriptBias (asked : Bool) (language : String) : ℚ :=
  if asked then
    if language == "shell" || language == "bash" || language == "sh" ||
        language == "python" || language == "py" || language == "go" then 1
    else if language == "yaml" || language == "terraform" || language == "tf" ||
        language == "json" then -1
    else 0
  else 0

/-- The eight noise words of the path regex. -/
def noiseWords : List String :=
  ["sample", "example", "test", "mock", "fixture", "tmp", "temp", "sandbox"]

/-- Matches `(sample|example|...)(/|\.|$)` at the head of `s`: a noise word
followed by a slash, a dot, or the end of the string. -/
def noiseAt (s : List Char) : Bool :=
  noiseWords.any fun w =>
    listHasPre w.data s &&
      match s.drop w.data.length with
      | [] => true
      | c :: _ => c == '/' || c == '.'

/-- Scans for a match of `noiseAt` right after some slash. -/
def noiseAfterSlash : List Char → Bool
  | [] => false
  | c :: rest => (c == '/' && noiseAt rest) || noiseAfterSlash rest

/-- The SQL regex
`lower(path) ~ (?:(^|.*/))(sample|example|test|mock|fixture|tmp|temp|sandbox)(/|\.|$)`:
an unanchored match places a noise word at the start of the string or right
after a slash, followed by a slash, a dot, or the end. -/
def noisy (path : String) : Bool :=
  noiseAt (strToLower path).data || noiseAfterSlash (strToLower path).data

/-- `noise_penalty` CASE expression. -/
def noisePenalty (path : String) : ℚ := if noisy path then 1 else 0

/-- `MAX(...) OVER ()` of a signal column over the candidate set (the
window always contains the row itself, so the empty-list seed is never
reached on a candidate). -/
def rowMax : List ℚ → ℚ
  | [] => 0
  | x :: xs => xs.foldl max x

/-- `COALESCE(x / NULLIF(m, 0), 0)`: per-query normalization by the
column maximum. -/
def normBy (m x : ℚ) : ℚ := if m = 0 then 0 else x / m

/-- The composite score of one candidate, given the per-query column
maxima:
`0.80*sem_n + 0.15*lex_n + 0.05*tri_n + 0.10*script_bias - 0.07*noise_penalty`. -/
def candScore (cosd : Vec → Vec → ℚ) (qv : Option Vec) (asked : Bool)
    (maxSem maxLex maxTri : ℚ) (c : SCand) : ℚ :=
  (80 / 100) * normBy maxSem (semRaw cosd qv c) +
    (15 / 100) * normBy maxLex (lexRaw c) +
    (5 / 100) * normBy maxTri (triRaw c) +
    (10 / 100) * scriptBias asked c.language -
    (7 / 100) * noisePenalty c.path

/-- The scores store.Search computes for the filtered candidate set (the
trailing ORDER BY / LIMIT reorders and truncates but never alters a
score).  An all-whitespace query text returns the empty list before any
SQL runs. -/
def searchScores (cosd : Vec → Vec → ℚ) (qv : Option Vec) (qtext : String)
    (cands : List SCand) : List ℚ :=
  if trimSpace qtext = "" then []
  else
    let asked := askedForScript (trimSpace qtext)
    let ms := rowMax (cands.map (semRaw cosd qv))
    let ml := rowMax (cands.map lexRaw)
    let mt := rowMax (cands.map triRaw)
    cands.map (candScore cosd qv asked ms ml mt)

/-! ### Model client (internal/ai) -/

/-- A deterministic model client: the two operations the core consumes.
`summarize` takes (path, language, content); errors are anonymous. -/
structure ClientM where
  summarize : String → String → String → Except Unit String
  embed : String → Except Unit Vec

/-- StubClient.Embed: `make([]float32, s.dim)`, an all-zero vector of the
configured dimension, never an error. -/
def stubEmbed (dim : Nat) (_text : String) : Except Unit Vec :=
  .ok (List.replicate dim 0)

/-- The comment-line condition of StubClient.Summarize on an
already-trimmed line: a `#` or `//` line longer than 10 (Go counts bytes;
characters coincide on ASCII input). -/
def isCommentLike (line : String) : Bool :=
  (strStartsWith line "#" || strStartsWith line "//") && strLen line > 10

/-- The scanning loop of StubClient.Summarize over `lines[:min(5, len)]`:
trim each line, return the first comment-like one. -/
def stubScan : Nat → List String → Option String
  | 0, _ => none
  | _, [] => none
  | n + 1, l :: rest =>
      let t := trimSpace l
      if isCommentLike t then some t else stubScan n rest

/-- StubClient.Summarize: first comment-like line of the first five lines,
else a fixed fallback naming the path; never an error. -/
def stubSummarize (path _language content : String) : Except Unit String :=
  match stubScan 5 (splitLines content) with
  | some t => .ok t
  | none => .ok ("Code file: " ++ path)

/-- The stub variant of the client. -/
def stubClient (dim : Nat) : ClientM :=
  { summarize := fun path language content => stubSummarize path language content
    embed := stubEmbed dim }

/-! ### Indexing pipeline (internal/indexer) -/

/-- indexer.chunk. -/
structure ChunkPiece where
  content : String
  lineStart : Nat
  lineEnd : Nat
  deriving DecidableEq, Repr

/-- indexer.naiveChunk: the whole file as one chunk spanning line 1 to
(newline count + 1); the path argument is unused, as in the source. -/
def naiveChunk (_path content : String) : List ChunkPiece :=
  [{ content := content, lineStart := 1, lineEnd := countNewlines content + 1 }]

/-- indexer.summarizeHeuristic: trim surrounding whitespace, cut to 240. -/
def summarizeHeuristic (s : String) : String :=
  let t := trimSpace s
  if strLen t > 240 then strTake t 240 else t

/-- indexer.hashContent: hex SHA-1 of the chunk content. -/
def hashContent (s : String) : String := sha1Hex s

/-- indexer.chunkID: hex SHA-1 of `path + "#" + line_start + ":" + line_end`.
Repository and ref do not enter. -/
def chunkID (path : String) (a b : Nat) : String :=
  sha1Hex (path ++ "#" ++ natToStr a ++ ":" ++ natToStr b)

/-- indexer.guessLang, extension part: Go filepath.Ext scanned from the
end of the path, stopping at a path separator. -/
def extOfRev : List Char → List Char → String
  | [], _ => ""
  | c :: rest, acc =>
      if c == '/' then ""
      else if c == '.' then String.mk ('.' :: acc)
      else extOfRev rest (c :: acc)

/-- Go filepath.Ext. -/
def extOf (p : String) : String := extOfRev p.data.reverse []

/-- indexer.guessLang: extension to lowercase language tag, falling back to
the extension without its dot. -/
def guessLang (path : String) : String :=
  let ext := strToLower (extOf path)
  if ext == ".sh" then "shell"
  else if ext == ".py" then "python"
  else if ext == ".go" then "go"
  else if ext == ".md" then "markdown"
  else if ext == ".tf" then "terraform"
  else if ext == ".js" then "javascript"
  else if ext == ".ts" then "typescript"
  else if ext == ".java" then "java"
  else if ext == ".rb" then "ruby"
  else if ext == ".yaml" || ext == ".yml" then "yaml"
  else if ext == ".json" then "json"
  else if strStartsWith ext "." then strDrop ext 1
  else ext

/-- indexer.rel, for the clean case the walker produces: strip the root
plus separator from the front, otherwise return the path unchanged
(filepath.Rel falls back to the input on error). -/
def rel (root p : String) : String :=
  if listHasPre (root ++ "/").data p.data then strDrop p (strLen root + 1) else p

/-- The truncation guard of processWorkItem: contents longer than 400000
are cut before summarization (Go slices bytes; characters on ASCII). -/
def capContent (s : String) : String :=
  if strLen s > 400000 then strTake s 400000 else s

/-- The delta policy of processWorkItem (lines 1801-1812): a metadata
error forces both kinds of work; otherwise
`need_summary = !found || hash changed || stored summary empty` and
`need_embed = !found || hash changed || no stored vector`. -/
def deltaDecision (metaRes : Except Unit (ChunkMeta × Bool)) (hash : String) :
    Bool × Bool :=
  match metaRes with
  | .error _ => (true, true)
  | .ok (meta, found) =>
      (!found || meta.contentHash != hash || meta.summary == "",
       !found || meta.contentHash != hash || !meta.hasSummaryVec)

/-- The summary selection of processWorkItem (lines 1814-1840), plus a flag
recording whether the model client was asked: when a summary is needed, a
successful non-blank model summary wins, else the heuristic; when not
needed the stored summary is reused. -/
def chooseSummary (client : ClientM) (needSummary : Bool) (storedSummary : String)
    (relPath lang content : String) : String × Bool :=
  if needSummary then
    match client.summarize relPath lang (capContent content) with
    | .ok s => if trimSpace s ≠ "" then (s, true) else (summarizeHeuristic content, true)
    | .error _ => (summarizeHeuristic content, true)
  else (storedSummary, false)

/-- The embedding selection of processWorkItem (lines 1843-1846), plus a
flag recording whether embed was called: an embedding error is dropped and
the vector omitted. -/
def chooseVec (client : ClientM) (needEmbed : Bool) (summary : String) :
    Option Vec × Bool :=
  if needEmbed then
    match client.embed summary with
    | .ok v => (some v, true)
    | .error _ => (none, true)
  else (none, false)

/-- Everything processWorkItem computes for one chunk before the upsert. -/
structure WorkOut where
  chunk : Chunk
  vec : Option Vec
  hash : String
  needSummary : Bool
  needEmbed : Bool
  summarizeCalled : Bool
  embedCalled : Bool
  deriving Repr

/-- The stored summary carried out of the metadata answer; the zero value
when the lookup failed (Go leaves `meta` at its zero value then). -/
def storedSummaryOf (metaRes : Except Unit (ChunkMeta × Bool)) : String :=
  match metaRes with
  | .ok (m, _) => m.summary
  | .error _ => ""

/-- The per-chunk body of processWorkItem, with the store metadata answer
injected (so the error branch is expressible): hash the content, decide the
delta, pick summary and vector, and assemble the models.Chunk whose id is
`chunkID(relPath, lineStart, lineEnd)`. -/
def processWithMeta (client : ClientM) (repository ref relPath : String)
    (ch : ChunkPiece) (metaRes : Except Unit (ChunkMeta × Bool)) : WorkOut :=
  let lang := guessLang relPath
  let hash := hashContent ch.content
  let de := deltaDecision metaRes hash
  let sc := chooseSummary client de.1 (storedSummaryOf metaRes) relPath lang ch.content
  let ve := chooseVec client de.2 sc.1
  { chunk :=
      { id := chunkID relPath ch.lineStart ch.lineEnd, repository := repository,
        ref := ref, path := relPath, language := lang, summary := sc.1,
        content := ch.content, lineStart := ch.lineStart, lineEnd := ch.lineEnd }
    vec := ve.1, hash := hash, needSummary := de.1, needEmbed := de.2,
    summarizeCalled := sc.2, embedCalled := ve.2 }

/-- Accumulated state of an indexing run: the table plus the number of
summarize and embed calls issued. -/
structure RunStats where
  table : Table
  sumCalls : Nat
  embCalls : Nat
  deriving Repr

/-- The loop body of processWorkItem for one chunk: consult GetChunkMeta,
do the delta work and upsert; an upsert error is logged and the run
continues with the table unchanged. -/
def processChunkStep (client : ClientM) (repository ref relPath : String)
    (now : Nat) (acc : RunStats) (ch : ChunkPiece) : RunStats :=
  let metaRes : Except Unit (ChunkMeta × Bool) :=
    .ok (getChunkMetaT acc.table repository relPath ch.lineStart ch.lineEnd)
  let o := processWithMeta client repository ref relPath ch metaRes
  { table :=
      match upsertChunkT now acc.table o.chunk o.vec o.hash with
      | .ok t => t
      | .error _ => acc.table
    sumCalls := acc.sumCalls + (if o.summarizeCalled then 1 else 0)
    embCalls := acc.embCalls + (if o.embedCalled then 1 else 0) }

/-- processWorkItem over one file: chunk it and fold the per-chunk body
over the chunks. -/
def processFile (client : ClientM) (repository ref root : String) (now : Nat)
    (acc : RunStats) (path content : String) : RunStats :=
  let relPath := rel root path
  (naiveChunk relPath content).foldl
    (processChunkStep client repository ref relPath now) acc

/-- One whole indexing run over the post-filter work items (the walker
feeds each readable, non-skipped file once; worker interleaving does not
change which per-chunk decisions are taken for distinct paths, so the runs
are modelled in walk order). -/
def runIndexT (client : ClientM) (repository ref root : String) (now : Nat)
    (st : Table) (files : List (String × String)) : RunStats :=
  files.foldl
    (fun acc pc => processFile client repository ref root now acc pc.1 pc.2)
    { table := st, sumCalls := 0, embCalls := 0 }

/-! ### Search service (internal/search) and API output (cmd/api) -/

/-- Service.Query: trim the query, carry the trimmed text in the options,
embed it, drop an embedding error and pass an absent vector, then delegate
to the store search verbatim.  The store dependency is the interface the
service is built against; `k` is passed through untouched. -/
def queryM {α : Type} (embed : String → Except Unit Vec)
    (storeSearch : Option Vec → Int → QueryOpts → Except Unit α)
    (q : String) (k : Int) (opt : QueryOpts) : Except Unit α :=
  let t := trimSpace q
  let opt := { opt with queryText := t }
  match embed t with
  | .ok v => storeSearch (some v) k opt
  | .error _ => storeSearch none k opt

/-- A float64 score as JSON sees it: finite, NaN, or a signed infinity. -/
inductive FScore where
  | fin (q : ℚ)
  | nan
  | pinf
  | ninf
  deriving DecidableEq, Repr

/-- True for a finite score. -/
def FScore.isFinite : FScore → Bool
  | .fin _ => true
  | _ => false

/-- The clamp of cmd/api (both in `output` and the /search handler):
`if math.IsNaN(score) || math.IsInf(score, 0) { score = 0 }`. -/
def sanitizeScore : FScore → FScore
  | .fin q => .fin q
  | _ => .fin 0

/-- models.SearchResult at the API boundary. -/
structure SearchResultF where
  chunk : Chunk
  score : FScore
  deriving DecidableEq, Repr

/-- The Simple payload of cmd/api. -/
structure Simple where
  path : String
  language : String
  lineStart : Nat
  lineEnd : Nat
  score : FScore
  preview : String
  summary : String
  ref : String
  repository : String
  deriving DecidableEq, Repr

/-- cmd/api `output`: map each result to its Simple form, clamping
non-finite scores to 0 and previewing the full content. -/
def output (res : List SearchResultF) : List Simple :=
  res.map fun r =>
    { path := r.chunk.path, language := r.chunk.language,
      lineStart := r.chunk.lineStart, lineEnd := r.chunk.lineEnd,
      score := sanitizeScore r.score, preview := r.chunk.content,
      summary := r.chunk.summary, ref := r.chunk.ref,
      repository := r.chunk.repository }

/-! ### Concrete instances used by counterexamples and witnesses -/

/-- A client whose summaries succeed but whose embedder is down. -/
def embedDownClient : ClientM :=
  { summarize := fun _ _ _ => .ok "a long enough model summary"
    embed := fun _ => .error () }

/-- First indexing run of the one-file tree `a.txt` containing `hello`
under the embed-failing client, from an empty table. -/
def failRun1 : RunStats :=
  runIndexT embedDownClient "r" "main" "" 0 [] [("a.txt", "hello")]

/-- Immediate second run over the unchanged tree with the same client. -/
def failRun2 : RunStats :=
  runIndexT embedDownClient "r" "main" "" 1 failRun1.table [("a.txt", "hello")]

/-- A fixed chunk payload for the service counterexample. -/
def cexChunk : Chunk :=
  { id := "id1", repository := "r", ref := "main", path := "a.go",
    language := "go", summary := "short summary", content := "package main",
    lineStart := 1, lineEnd := 2 }

/-- A store whose ranking reports a NaN score, as the interface allows. -/
def nanStore : Option Vec → Int → QueryOpts → Except Unit (List SearchResultF) :=
  fun _ _ _ => .ok [{ chunk := cexChunk, score := .nan }]

/-- Candidate at `src/foo.go` with all-zero external signals. -/
def candSrc : SCand :=
  { language := "go", path := "src/foo.go", summaryVec := none, lexRank := 0,
    triSim := some 0 }

/-- Candidate at `samples/foo.go` with the same signals as `candSrc`. -/
def candSamples : SCand :=
  { language := "go", path := "samples/foo.go", summaryVec := none, lexRank := 0,
    triSim := some 0 }

/-- The twin of `candSrc` moved to the singular `sample` directory, which
the noise pattern does match. -/
def candSamplePath : SCand := { candSrc with path := "sample/foo.go" }

/-- Candidate with positive script bias for the bounds counterexample. -/
def candGo : SCand :=
  { language := "go", path := "src/a.go", summaryVec := none, lexRank := 0,
    triSim := some 0 }

/-- Candidate hitting bias -1 and the noise penalty at once. -/
def candYamlTmp : SCand :=
  { language := "yaml", path := "tmp/x", summaryVec := none, lexRank := 0,
    triSim := some 0 }

/-- The row an earlier indexing run of repository `r1` left for `a.go`
lines 1-2; its id is the hash of the path and span alone. -/
def rowR1 : Row :=
  { id := chunkID "a.go" 1 2, repository := "r1", ref := "main", path := "a.go",
    language := "go", summary := "stored summary", content := "package a",
    lineStart := 1, lineEnd := 2, summaryVec := none, contentHash := "h1",
    summarizedAt := some 0, createdAt := 0 }

/-- The same file and span indexed under repository `r2`. -/
def chunkR2 : Chunk :=
  { id := chunkID "a.go" 1 2, repository := "r2", ref := "main", path := "a.go",
    language := "go", summary := "new summary", content := "package a",
    lineStart := 1, lineEnd := 2 }

/-- A row for the merge-rule witness. -/
def rowMergeOld : Row :=
  { id := "w1", repository := "r", ref := "main", path := "b.go",
    language := "go", summary := "old summary", content := "old content",
    lineStart := 1, lineEnd := 3, summaryVec := some [1, 2], contentHash := "oldhash",
    summarizedAt := some 4, createdAt := 7 }

/-- An upsert against `rowMergeOld` with an empty summary and no vector. -/
def chunkMergeNew : Chunk :=
  { id := "w1", repository := "r", ref := "main", path := "b.go",
    language := "go", summary := "", content := "new content",
    lineStart := 1, lineEnd := 3 }

/-- Modelled from the spec (Scenario F): the lexical-only composite a
query ranks by when no query vector is available,
`0.15*lex_n + 0.05*tri_n + 0.10*script_bias - 0.07*noise_penalty`. -/
def lexOnlyScore (qtext : String) (maxLex maxTri : ℚ) (c : SCand) : ℚ :=
  (15 / 100) * normBy maxLex (lexRaw c) +
    (5 / 100) * normBy maxTri (triRaw c) +
    (10 / 100) * scriptBias (askedForScript (trimSpace qtext)) c.language -
    (7 / 100) * noisePenalty c.path

end RepoSearch

namespace RepoSearch

/-! ### Helper lemmas -/

set_option maxRecDepth 400000 in
/-- SHA-1 sanity anchor: the model reproduces the standard test vector. -/
theorem sha1Hex_test_vector :
    sha1Hex "abc" = "a9993e364706816aba3e25717850c26c9cd0d89d" := by decide

/-- The stub scanning loop is the first comment-like entry of the first
`n` trimmed lines. -/
theorem stubScan_eq_find (n : Nat) (ls : List String) :
    stubScan n ls = ((ls.take n).map trimSpace).find? isCommentLike := by
  induction n generalizing ls with
  | zero => simp [stubScan]
  | succ n ih =>
    cases ls with
    | nil => simp [stubScan]
    | cons l rest =>
      by_cases h : isCommentLike (trimSpace l)
      · simp [stubScan, List.find?_cons, h]
      · simp [stubScan, List.find?_cons, h, ih]

/-- Mapping a function that preserves the searched predicate maps the
found element. -/
theorem find?_map_pres {α : Type} (p : α → Bool) (f : α → α) (l : List α)
    (old : α) (hf : ∀ a, p (f a) = p a) (h : l.find? p = some old) :
    (l.map f).find? p = some (f old) := by
  induction l with
  | nil => simp at h
  | cons a l ih =>
    by_cases hp : p a
    · rw [List.find?_cons_of_pos _ hp] at h
      cases h
      rw [List.map_cons, List.find?_cons_of_pos _ ((hf old).trans hp)]
    · rw [List.find?_cons_of_neg _ hp] at h
      rw [List.map_cons,
        List.find?_cons_of_neg _ (by rw [hf a]; exact hp)]
      exact ih h

/-- The merge keeps the five key columns, so the conflict-target
predicate is preserved. -/
theorem rowKeyMatches_mergeRow (now : Nat) (c : Chunk) (vec : Option Vec)
    (hash : String) (r : Row) :
    rowKeyMatches c (mergeRow now r c vec hash) = rowKeyMatches c r := rfl

/-! ### C7 - chunking -/

/-- C7: naiveChunk produces exactly one chunk for any file content,
spanning line 1 to (newline count + 1) and carrying the whole text; in
particular a file of N newlines ends at line N + 1, and a single line
without a trailing newline ends at line 1. -/
theorem naiveChunk_single_full_span (path content : String) :
    naiveChunk path content =
      [{ content := content, lineStart := 1,
         lineEnd := countNewlines content + 1 }] ∧
    (naiveChunk path content).length = 1 :=
  ⟨rfl, rfl⟩

/-! ### C10 - metadata-lookup error handling -/

/-- C10: a metadata-lookup error does not abort the chunk; the delta
decision becomes (true, true), the chunk is processed exactly as one the
store has never seen, and both summarize and embed are invoked before the
upsert. -/
theorem meta_error_processed_as_unseen (client : ClientM)
    (repository ref relPath : String) (ch : ChunkPiece) :
    processWithMeta client repository ref relPath ch (.error ()) =
      processWithMeta client repository ref relPath ch (.ok (emptyMeta, false)) ∧
    deltaDecision (.error ()) (hashContent ch.content) = (true, true) ∧
    (processWithMeta client repository ref relPath ch (.error ())).summarizeCalled
      = true ∧
    (processWithMeta client repository ref relPath ch (.error ())).embedCalled
      = true := by
  refine ⟨rfl, rfl, ?_, ?_⟩
  · show (chooseSummary client true "" relPath (guessLang relPath) ch.content).2 = true
    unfold chooseSummary
    cases client.summarize relPath (guessLang relPath) (capContent ch.content) with
    | ok s => by_cases h : trimSpace s ≠ "" <;> simp [h]
    | error e => simp
  · show (chooseVec client true
      (chooseSummary client true "" relPath (guessLang relPath) ch.content).1).2 = true
    unfold chooseVec
    cases client.embed
        (chooseSummary client true "" relPath (guessLang relPath) ch.content).1 with
    | ok v => simp
    | error e => simp

/-! ### C8 - stub client contract -/

/-- C8: the stub embed always succeeds with the all-zero vector of the
configured dimension, and the stub summarize always succeeds with the
first comment-like trimmed line (prefix # or //, length over 10) of the
first five lines, else the fixed fallback naming the path. -/
theorem stubClient_contract (dim : Nat) (text path language content : String) :
    (stubClient dim).embed text = .ok (List.replicate dim 0) ∧
    (List.replicate dim (0 : ℚ)).length = dim ∧
    (∀ x ∈ List.replicate dim (0 : ℚ), x = 0) ∧
    (stubClient dim).summarize path language content =
      .ok (((((splitLines content).take 5).map trimSpace).find? isCommentLike).getD
        ("Code file: " ++ path)) := by
  refine ⟨rfl, List.length_replicate .., fun x hx => List.eq_of_mem_replicate hx, ?_⟩
  show stubSummarize path language content = _
  unfold stubSummarize
  rw [stubScan_eq_find]
  cases h : (((splitLines content).take 5).map trimSpace).find? isCommentLike with
  | none => simp
  | some l => simp

/-! ### C5 - non-finite score hygiene -/

/-- C5 counterexample: the search service itself returns the scores of the
store verbatim, so a NaN score from the store dependency passes through
Service.Query unclamped; the claim that every score the query operation
returns is neither NaN nor infinite fails. -/
theorem service_passes_nan_score_verbatim :
    queryM (fun _ => .ok [0]) nanStore "q" 5 emptyOpts =
      .ok [{ chunk := cexChunk, score := .nan }] ∧
    FScore.nan.isFinite = false ∧
    FScore.nan ≠ FScore.fin 0 := ⟨rfl, rfl, by decide⟩

/-- C5 amended: the non-finite clamp lives in the HTTP adaptor, not in
Service.Query: the output mapping of cmd/api surfaces every NaN or
infinite score as 0 and leaves finite scores untouched, so every score it
emits is finite. -/
theorem api_output_sanitizes_scores (res : List SearchResultF) :
    (∀ s ∈ output res, s.score.isFinite = true) ∧
    (output res).map Simple.score = res.map (fun r => sanitizeScore r.score) ∧
    sanitizeScore .nan = .fin 0 ∧ sanitizeScore .pinf = .fin 0 ∧
    sanitizeScore .ninf = .fin 0 ∧ (∀ q : ℚ, sanitizeScore (.fin q) = .fin q) := by
  refine ⟨?_, ?_, rfl, rfl, rfl, fun q => rfl⟩
  · intro s hs
    rcases List.mem_map.mp hs with ⟨r, _, rfl⟩
    cases r.score <;> rfl
  · rw [output, List.map_map]
    rfl

/-! ### C2 - upsert merge rules -/

/-- C2: when an upsert hits an existing row at the same (repository, ref,
path, line span) key, the store overwrites content, language and
content_hash, keeps the stored summary unless the incoming one is
non-empty, keeps the stored vector unless one is provided, and preserves
created_at. -/
theorem upsertChunk_merge_rules (now : Nat) (st : Table) (c : Chunk)
    (vec : Option Vec) (hash : String) (old : Row)
    (h : st.find? (rowKeyMatches c) = some old) :
    upsertChunkT now st c vec hash =
      .ok (st.map fun r => if rowKeyMatches c r then mergeRow now r c vec hash else r) ∧
    (st.map fun r =>
        if rowKeyMatches c r then mergeRow now r c vec hash else r).find?
      (rowKeyMatches c) = some (mergeRow now old c vec hash) ∧
    (mergeRow now old c vec hash).content = c.content ∧
    (mergeRow now old c vec hash).language = c.language ∧
    (mergeRow now old c vec hash).contentHash = hash ∧
    (mergeRow now old c vec hash).summary =
      (if c.summary = "" then old.summary else c.summary) ∧
    (mergeRow now old c vec hash).summaryVec =
      (match vec with | some v => some v | none => old.summaryVec) ∧
    (mergeRow now old c vec hash).createdAt = old.createdAt := by
  refine ⟨?_, ?_, rfl, rfl, rfl, rfl, rfl, rfl⟩
  · unfold upsertChunkT
    rw [h]
  · have hpres : ∀ r, rowKeyMatches c
        (if rowKeyMatches c r then mergeRow now r c vec hash else r) =
        rowKeyMatches c r := by
      intro r
      by_cases hr : rowKeyMatches c r <;> simp [hr, rowKeyMatches_mergeRow]
    have := find?_map_pres (rowKeyMatches c)
      (fun r => if rowKeyMatches c r then mergeRow now r c vec hash else r)
      st old hpres h
    rw [this]
    have hold : rowKeyMatches c old = true := List.find?_some h
    simp [hold]

/-- C2 witness: a concrete merge where the incoming summary is empty and
no vector is supplied preserves the stored summary, vector and creation
time while refreshing content and hash. -/
theorem upsertChunk_merge_rules_witness :
    upsertChunkT 9 [rowMergeOld] chunkMergeNew none "newhash" =
      .ok ([rowMergeOld].map fun r =>
        if rowKeyMatches chunkMergeNew r
        then mergeRow 9 r chunkMergeNew none "newhash" else r) ∧
    ([rowMergeOld].map fun r =>
        if rowKeyMatches chunkMergeNew r
        then mergeRow 9 r chunkMergeNew none "newhash" else r).find?
      (rowKeyMatches chunkMergeNew) =
      some (mergeRow 9 rowMergeOld chunkMergeNew none "newhash") ∧
    (mergeRow 9 rowMergeOld chunkMergeNew none "newhash").content =
      chunkMergeNew.content ∧
    (mergeRow 9 rowMergeOld chunkMergeNew none "newhash").language =
      chunkMergeNew.language ∧
    (mergeRow 9 rowMergeOld chunkMergeNew none "newhash").contentHash = "newhash" ∧
    (mergeRow 9 rowMergeOld chunkMergeNew none "newhash").summary =
      (if chunkMergeNew.summary = "" then rowMergeOld.summary
       else chunkMergeNew.summary) ∧
    (mergeRow 9 rowMergeOld chunkMergeNew none "newhash").summaryVec =
      (match (none : Option Vec) with
       | some v => some v
       | none => rowMergeOld.summaryVec) ∧
    (mergeRow 9 rowMergeOld chunkMergeNew none "newhash").createdAt =
      rowMergeOld.createdAt :=
  upsertChunk_merge_rules 9 [rowMergeOld] chunkMergeNew none "newhash" rowMergeOld
    (by decide)

/-! ### Scoring helper lemmas -/

/-- The SQL clamp keeps its value in the unit interval. -/
theorem clamp01_bounds (x : ℚ) : 0 ≤ clamp01 x ∧ clamp01 x ≤ 1 :=
  ⟨le_min (le_max_right x 0) zero_le_one, min_le_right _ _⟩

/-- sem_sim is non-negative whatever the oracle reports. -/
theorem semRaw_nonneg (cosd : Vec → Vec → ℚ) (qv : Option Vec) (c : SCand) :
    0 ≤ semRaw cosd qv c := by
  rcases c with ⟨lang, path, sv, lr, tr⟩
  cases qv <;> cases sv <;>
    first
      | exact le_refl 0
      | exact (clamp01_bounds _).1

/-- lex_sum is non-negative. -/
theorem lexRaw_nonneg (c : SCand) : 0 ≤ lexRaw c := (clamp01_bounds _).1

/-- An absent query vector zeroes sem_sim on every candidate. -/
theorem semRaw_none (cosd : Vec → Vec → ℚ) (c : SCand) :
    semRaw cosd none c = 0 := by
  rcases c with ⟨lang, path, sv, lr, tr⟩
  cases sv <;> rfl

/-- A fold of max dominates its seed. -/
theorem foldl_max_init_le (l : List ℚ) (a : ℚ) : a ≤ l.foldl max a := by
  induction l generalizing a with
  | nil => simp
  | cons x xs ih => exact le_trans (le_max_left a x) (ih (max a x))

/-- A fold of max dominates every element. -/
theorem mem_le_foldl_max (l : List ℚ) (a x : ℚ) (h : x ∈ l) :
    x ≤ l.foldl max a := by
  induction l generalizing a with
  | nil => cases h
  | cons y ys ih =>
    rcases List.mem_cons.mp h with rfl | hy
    · exact le_trans (le_max_right a x) (foldl_max_init_le ys (max a x))
    · exact ih (max a y) hy

/-- The per-query window maximum dominates every column value. -/
theorem mem_le_rowMax (l : List ℚ) (x : ℚ) (h : x ∈ l) : x ≤ rowMax l := by
  cases l with
  | nil => cases h
  | cons y ys =>
    rcases List.mem_cons.mp h with rfl | hy
    · exact foldl_max_init_le ys x
    · exact mem_le_foldl_max ys y x hy

/-- The window maximum of an all-zero column is zero. -/
theorem rowMax_map_zero {α : Type} (l : List α) :
    rowMax (l.map fun _ => (0 : ℚ)) = 0 := by
  cases l with
  | nil => rfl
  | cons a l =>
    show (l.map fun _ => (0 : ℚ)).foldl max 0 = 0
    induction l with
    | nil => rfl
    | cons b l ih => simpa [max_self] using ih

/-- Normalization by a zero maximum yields zero. -/
theorem normBy_zero (x : ℚ) : normBy 0 x = 0 := if_pos rfl

/-- A non-negative value normalized by a dominating maximum lies in the
unit interval. -/
theorem normBy_bounds (m x : ℚ) (hx : 0 ≤ x) (hm : x ≤ m) :
    0 ≤ normBy m x ∧ normBy m x ≤ 1 := by
  unfold normBy
  by_cases h : m = 0
  · simp [h]
  · have hm0 : 0 < m := lt_of_le_of_ne (le_trans hx hm) (Ne.symm h)
    rw [if_neg h]
    exact ⟨div_nonneg hx (le_of_lt hm0), (div_le_one hm0).mpr hm⟩

/-- The script bias takes values between -1 and 1. -/
theorem scriptBias_bounds (asked : Bool) (language : String) :
    -1 ≤ scriptBias asked language ∧ scriptBias asked language ≤ 1 := by
  unfold scriptBias
  split_ifs <;> norm_num

/-- The noise penalty takes values between 0 and 1. -/
theorem noisePenalty_bounds (path : String) :
    0 ≤ noisePenalty path ∧ noisePenalty path ≤ 1 := by
  unfold noisePenalty
  split_ifs <;> norm_num

/-- Bounds of the weighted composite given bounds of its five inputs. -/
theorem composite_bounds {s l t b n : ℚ}
    (hs0 : 0 ≤ s) (hs1 : s ≤ 1) (hl0 : 0 ≤ l) (hl1 : l ≤ 1)
    (ht0 : 0 ≤ t) (ht1 : t ≤ 1) (hb0 : -1 ≤ b) (hb1 : b ≤ 1)
    (hn0 : 0 ≤ n) (hn1 : n ≤ 1) :
    -(17 / 100) ≤
        (80 / 100) * s + (15 / 100) * l + (5 / 100) * t + (10 / 100) * b -
          (7 / 100) * n ∧
      (80 / 100) * s + (15 / 100) * l + (5 / 100) * t + (10 / 100) * b -
          (7 / 100) * n ≤ 11 / 10 := by
  constructor <;> nlinarith

/-! ### C3 - score bounds -/

/-- C3 counterexample: with a script query, a yaml candidate in a tmp
directory and all other signals zero, the composite score is -17/100,
strictly below the claimed lower bound -0.07 (script_bias -1 contributes
-0.10 on top of the -0.07 noise penalty). -/
theorem score_outside_claimed_interval :
    searchScores (fun _ _ => 0) none "script" [candGo, candYamlTmp] =
      [1 / 10, -17 / 100] ∧
    ¬ (-(7 / 100) ≤ (-17 / 100 : ℚ)) := by
  constructor
  · decide
  · norm_num

/-- C3 amended: every component signal after per-query normalization lies
in [0, 1] (the pg_trgm similarity input being non-negative), and the final
composite score lies in [-0.17, 1.10]: the lower end comes from
script_bias -1 together with noise_penalty 1, so the claimed -0.07 fails
exactly when the bias is negative. -/
theorem searchScores_bounds (cosd : Vec → Vec → ℚ) (qv : Option Vec)
    (qtext : String) (cands : List SCand)
    (htri : ∀ c ∈ cands, 0 ≤ triRaw c) :
    (∀ c ∈ cands,
      (0 ≤ normBy (rowMax (cands.map (semRaw cosd qv))) (semRaw cosd qv c) ∧
        normBy (rowMax (cands.map (semRaw cosd qv))) (semRaw cosd qv c) ≤ 1) ∧
      (0 ≤ normBy (rowMax (cands.map lexRaw)) (lexRaw c) ∧
        normBy (rowMax (cands.map lexRaw)) (lexRaw c) ≤ 1) ∧
      (0 ≤ normBy (rowMax (cands.map triRaw)) (triRaw c) ∧
        normBy (rowMax (cands.map triRaw)) (triRaw c) ≤ 1)) ∧
    (∀ s ∈ searchScores cosd qv qtext cands,
      -(17 / 100) ≤ s ∧ s ≤ 11 / 10) := by
  have hcomp : ∀ c ∈ cands,
      (0 ≤ normBy (rowMax (cands.map (semRaw cosd qv))) (semRaw cosd qv c) ∧
        normBy (rowMax (cands.map (semRaw cosd qv))) (semRaw cosd qv c) ≤ 1) ∧
      (0 ≤ normBy (rowMax (cands.map lexRaw)) (lexRaw c) ∧
        normBy (rowMax (cands.map lexRaw)) (lexRaw c) ≤ 1) ∧
      (0 ≤ normBy (rowMax (cands.map triRaw)) (triRaw c) ∧
        normBy (rowMax (cands.map triRaw)) (triRaw c) ≤ 1) := by
    intro c hc
    refine ⟨normBy_bounds _ _ (semRaw_nonneg cosd qv c) ?_,
      normBy_bounds _ _ (lexRaw_nonneg c) ?_,
      normBy_bounds _ _ (htri c hc) ?_⟩
    · exact mem_le_rowMax _ _ (List.mem_map_of_mem (semRaw cosd qv) hc)
    · exact mem_le_rowMax _ _ (List.mem_map_of_mem lexRaw hc)
    · exact mem_le_rowMax _ _ (List.mem_map_of_mem triRaw hc)
  refine ⟨hcomp, ?_⟩
  intro s hs
  unfold searchScores at hs
  by_cases hq : trimSpace qtext = ""
  · rw [if_pos hq] at hs
    cases hs
  · rw [if_neg hq] at hs
    rcases List.mem_map.mp hs with ⟨c, hc, rfl⟩
    obtain ⟨⟨hs0, hs1⟩, ⟨hl0, hl1⟩, ⟨ht0, ht1⟩⟩ := hcomp c hc
    obtain ⟨hb0, hb1⟩ :=
      scriptBias_bounds (askedForScript (trimSpace qtext)) c.language
    obtain ⟨hn0, hn1⟩ := noisePenalty_bounds c.path
    exact composite_bounds hs0 hs1 hl0 hl1 ht0 ht1 hb0 hb1 hn0 hn1

/-- C3 witness: the bounds theorem applied to a concrete candidate set. -/
theorem searchScores_bounds_witness :
    (∀ c ∈ [candGo, candYamlTmp],
      (0 ≤ normBy (rowMax ([candGo, candYamlTmp].map (semRaw (fun _ _ => 0) none)))
          (semRaw (fun _ _ => 0) none c) ∧
        normBy (rowMax ([candGo, candYamlTmp].map (semRaw (fun _ _ => 0) none)))
          (semRaw (fun _ _ => 0) none c) ≤ 1) ∧
      (0 ≤ normBy (rowMax ([candGo, candYamlTmp].map lexRaw)) (lexRaw c) ∧
        normBy (rowMax ([candGo, candYamlTmp].map lexRaw)) (lexRaw c) ≤ 1) ∧
      (0 ≤ normBy (rowMax ([candGo, candYamlTmp].map triRaw)) (triRaw c) ∧
        normBy (rowMax ([candGo, candYamlTmp].map triRaw)) (triRaw c) ≤ 1)) ∧
    (∀ s ∈ searchScores (fun _ _ => 0) none "script" [candGo, candYamlTmp],
      -(17 / 100) ≤ s ∧ s ≤ 11 / 10) :=
  searchScores_bounds (fun _ _ => 0) none "script" [candGo, candYamlTmp]
    (by decide)

/-! ### C4 - noise penalty on sample-like paths -/

/-- C4 counterexample: the path `samples/foo.go` does not match the noise
regex (the pattern needs the word followed by a slash, a dot or the end,
and `samples` continues with the letter s), so with identical signals the
two candidates score identically instead of 0.07 apart. -/
theorem samples_path_not_penalized :
    noisy "samples/foo.go" = false ∧
    noisePenalty "samples/foo.go" = 0 ∧
    searchScores (fun _ _ => 0) none "foo" [candSrc, candSamples] = [0, 0] := by
  refine ⟨by decide, by decide, by decide⟩

/-- A candidate differing from another only in a penalized path scores
exactly 0.07 lower under shared per-query maxima. -/
theorem candScore_path_only_noise (cosd : Vec → Vec → ℚ) (qv : Option Vec)
    (asked : Bool) (ms ml mt : ℚ) (A B : SCand)
    (hsem : semRaw cosd qv B = semRaw cosd qv A) (hlex : lexRaw B = lexRaw A)
    (htri : triRaw B = triRaw A) (hlang : B.language = A.language)
    (hBpath : noisePenalty B.path = 1) (hApath : noisePenalty A.path = 0) :
    candScore cosd qv asked ms ml mt B =
      candScore cosd qv asked ms ml mt A - 7 / 100 := by
  unfold candScore
  rw [hsem, hlex, htri, hlang, hBpath, hApath]
  ring

/-- C4 amended: the penalty fires on a path whose segment is exactly a
noise word: with identical signals, a chunk at `sample/foo.go` scores
exactly 0.07 below the twin chunk at `src/foo.go`, while `samples/foo.go`
is not penalized. -/
theorem sample_segment_noise_penalty (cosd : Vec → Vec → ℚ) (qv : Option Vec)
    (qtext : String) (A B : SCand) (hq : trimSpace qtext ≠ "")
    (hA : A.path = "src/foo.go")
    (hB : B = { A with path := "sample/foo.go" }) :
    noisePenalty B.path = 1 ∧ noisePenalty A.path = 0 ∧
    noisePenalty "samples/foo.go" = 0 ∧
    ∃ sA, searchScores cosd qv qtext [A, B] = [sA, sA - 7 / 100] := by
  subst hB
  have h1 : noisePenalty "sample/foo.go" = 1 := by decide
  have h0 : noisePenalty "src/foo.go" = 0 := by decide
  have hApath : noisePenalty A.path = 0 := by rw [hA]; exact h0
  refine ⟨h1, hApath, by decide, ?_⟩
  unfold searchScores
  rw [if_neg hq]
  simp only [List.map_cons, List.map_nil]
  exact ⟨_, by
    rw [candScore_path_only_noise cosd qv (askedForScript (trimSpace qtext))
      _ _ _ A { A with path := "sample/foo.go" } rfl rfl rfl rfl h1 hApath]⟩

/-- C4 witness: the amended statement at a concrete non-blank query and a
concrete candidate pair. -/
theorem sample_segment_noise_penalty_witness :
    noisePenalty candSamplePath.path = 1 ∧ noisePenalty candSrc.path = 0 ∧
    noisePenalty "samples/foo.go" = 0 ∧
    ∃ sA, searchScores (fun _ _ => 0) none "foo" [candSrc, candSamplePath] =
      [sA, sA - 7 / 100] :=
  sample_segment_noise_penalty (fun _ _ => 0) none "foo" candSrc candSamplePath
    (by decide) rfl rfl

/-! ### C6 - graceful degradation on embedder failure -/

/-- C6: when embedding the trimmed query fails, Service.Query does not
surface the error; it calls the store search with an absent vector and the
trimmed text in the options, and under an absent vector every candidate
has sem_sim 0, so the store ranks by the lexical-only composite. -/
theorem query_embed_failure_lexical_only {α : Type}
    (embed : String → Except Unit Vec)
    (storeSearch : Option Vec → Int → QueryOpts → Except Unit α)
    (q : String) (k : Int) (opt : QueryOpts)
    (h : embed (trimSpace q) = .error ()) :
    queryM embed storeSearch q k opt =
      storeSearch none k { opt with queryText := trimSpace q } ∧
    (∀ (cosd : Vec → Vec → ℚ) (c : SCand), semRaw cosd none c = 0) ∧
    (∀ (cosd : Vec → Vec → ℚ) (qtext : String) (cands : List SCand),
      trimSpace qtext ≠ "" →
      searchScores cosd none qtext cands =
        cands.map (lexOnlyScore qtext (rowMax (cands.map lexRaw))
          (rowMax (cands.map triRaw)))) := by
  refine ⟨?_, semRaw_none, ?_⟩
  · simp only [queryM, h]
  · intro cosd qtext cands hq
    unfold searchScores
    rw [if_neg hq]
    have hzero : cands.map (semRaw cosd none) = cands.map fun _ => (0 : ℚ) :=
      List.map_congr_left fun c _ => semRaw_none cosd c
    refine List.map_congr_left fun c hc => ?_
    unfold candScore lexOnlyScore
    rw [semRaw_none, hzero, rowMax_map_zero, normBy_zero]
    ring

/-- C6 witness: a concrete always-failing embedder degrades to the
lexical-only store call with the trimmed query carried through. -/
theorem query_embed_failure_lexical_only_witness :
    queryM (fun _ => .error ()) (fun v k o => Except.ok (v, k, o)) " hello " 4
        emptyOpts =
      (fun (v : Option Vec) (k : Int) (o : QueryOpts) => Except.ok (v, k, o))
        none 4 { emptyOpts with queryText := trimSpace " hello " } ∧
    (∀ (cosd : Vec → Vec → ℚ) (c : SCand), semRaw cosd none c = 0) ∧
    (∀ (cosd : Vec → Vec → ℚ) (qtext : String) (cands : List SCand),
      trimSpace qtext ≠ "" →
      searchScores cosd none qtext cands =
        cands.map (lexOnlyScore qtext (rowMax (cands.map lexRaw))
          (rowMax (cands.map triRaw)))) :=
  query_embed_failure_lexical_only (fun _ => .error ())
    (fun v k o => Except.ok (v, k, o)) " hello " 4 emptyOpts rfl

/-! ### C9 - cross-repository id collision -/

/-- C9: the indexer computes the chunk id from path and line span only,
independently of repository and ref; since id is the PRIMARY KEY and the
upsert conflict target is the five-column key, upserting the same
(path, span) under a different repository or ref misses the conflict
target, collides on the id and fails with a uniqueness error, leaving the
table unchanged. -/
theorem chunkID_cross_repo_pk_collision (st : Table) (r : Row) (c : Chunk)
    (vec : Option Vec) (hash : String) (now : Nat)
    (hmem : r ∈ st)
    (hcid : c.id = chunkID c.path c.lineStart c.lineEnd)
    (hrid : r.id = chunkID c.path c.lineStart c.lineEnd)
    (hkey : st.find? (rowKeyMatches c) = none) :
    upsertChunkT now st c vec hash = .error () ∧
    (∀ (client : ClientM) (repository ref relPath : String) (ch : ChunkPiece)
      (metaRes : Except Unit (ChunkMeta × Bool)),
      (processWithMeta client repository ref relPath ch metaRes).chunk.id =
        chunkID relPath ch.lineStart ch.lineEnd) := by
  constructor
  · have hany : st.any (fun row => row.id == c.id) = true :=
      List.any_eq_true.mpr ⟨r, hmem, beq_iff_eq.mpr (hrid.trans hcid.symm)⟩
    unfold upsertChunkT
    rw [hkey, hany]
    rfl
  · intro client repository ref relPath ch metaRes
    rfl

/-- C9 witness: a row indexed under repository r1 blocks the upsert of
the same file and span under repository r2. -/
theorem chunkID_cross_repo_pk_collision_witness :
    upsertChunkT 5 [rowR1] chunkR2 none "h2" = .error () ∧
    (∀ (client : ClientM) (repository ref relPath : String) (ch : ChunkPiece)
      (metaRes : Except Unit (ChunkMeta × Bool)),
      (processWithMeta client repository ref relPath ch metaRes).chunk.id =
        chunkID relPath ch.lineStart ch.lineEnd) :=
  chunkID_cross_repo_pk_collision [rowR1] rowR1 chunkR2 none "h2" 5
    (List.mem_singleton.mpr rfl) rfl rfl (by decide)

/-! ### C1 - idempotent indexing -/

set_option maxRecDepth 1000000 in
/-- C1 counterexample: with a model client whose embedder always fails,
the first run stores the row without a vector, so an immediate second run
over the unchanged one-file tree recomputes the delta as (false, true) -
not (false, false) - and issues one more embed call instead of zero. -/
theorem second_run_reembeds_after_embed_failure :
    (failRun2.sumCalls, failRun2.embCalls) = (0, 1) ∧
    deltaDecision (.ok (getChunkMetaT failRun1.table "r" "a.txt" 1 1))
        (hashContent "hello") = (false, true) ∧
    ((false, true) : Bool × Bool) ≠ (false, false) := by
  refine ⟨by decide, by decide, by decide⟩

/-- A key-fresh, id-fresh upsert appends the inserted row. -/
theorem upsertChunkT_insert_of_fresh (now : Nat) (st : Table) (c : Chunk)
    (vec : Option Vec) (hash : String)
    (hkey : st.find? (rowKeyMatches c) = none)
    (hid : st.any (fun r => r.id == c.id) = false) :
    upsertChunkT now st c vec hash = .ok (st ++ [insertRow now c vec hash]) := by
  unfold upsertChunkT
  rw [hkey, hid]
  rfl

/-- A full-key mismatch follows from a natural-key mismatch. -/
theorem rowKey_false_of_metaKey_false (c : Chunk) (r : Row)
    (h : metaKeyMatches c.repository c.path c.lineStart c.lineEnd r = false) :
    rowKeyMatches c r = false := by
  unfold metaKeyMatches at h
  unfold rowKeyMatches
  cases h1 : (r.repository == c.repository) <;>
    cases h2 : (r.ref == c.ref) <;>
    cases h3 : (r.path == c.path) <;>
    cases h4 : (r.lineStart == c.lineStart) <;>
    cases h5 : (r.lineEnd == c.lineEnd) <;>
    simp_all

/-- The natural-key lookup finds a freshly appended row when the rest of
the table misses the key. -/
theorem getChunkMetaT_after_insert (st : Table) (repository path : String)
    (ls le : Nat) (now : Nat) (c : Chunk) (vec : Option Vec) (hash : String)
    (hnone : st.find? (metaKeyMatches repository path ls le) = none)
    (h1 : c.repository = repository) (h2 : c.path = path)
    (h3 : c.lineStart = ls) (h4 : c.lineEnd = le) :
    getChunkMetaT (st ++ [insertRow now c vec hash]) repository path ls le =
      ({ contentHash := hash, summary := c.summary,
         hasSummaryVec := vec.isSome }, true) := by
  subst h1 h2 h3 h4
  have hpos : metaKeyMatches c.repository c.path c.lineStart c.lineEnd
      (insertRow now c vec hash) = true := by
    simp [metaKeyMatches, insertRow]
  unfold getChunkMetaT
  rw [List.find?_append, hnone, Option.none_or,
    List.find?_cons_of_pos _ hpos]
  rfl

/-- A stored meta carrying the same hash, a non-empty summary and a
vector yields the all-false delta decision. -/
theorem deltaDecision_false_false (m : ChunkMeta) (hash : String)
    (h1 : m.contentHash = hash) (h2 : m.summary ≠ "")
    (h3 : m.hasSummaryVec = true) :
    deltaDecision (.ok (m, true)) hash = (false, false) := by
  cases m with
  | mk mch msum mvec =>
    simp only at h1 h2 h3
    subst h1 h3
    simp [deltaDecision, beq_eq_false_iff_ne.mpr h2]

/-- A chunk step whose delta decision is all-false asks the model client
for nothing. -/
theorem processChunkStep_no_calls (client : ClientM)
    (repository ref relPath : String) (now : Nat) (acc : RunStats)
    (ch : ChunkPiece)
    (h : deltaDecision
        (.ok (getChunkMetaT acc.table repository relPath ch.lineStart ch.lineEnd))
        (hashContent ch.content) = (false, false)) :
    (processChunkStep client repository ref relPath now acc ch).sumCalls =
        acc.sumCalls ∧
      (processChunkStep client repository ref relPath now acc ch).embCalls =
        acc.embCalls := by
  constructor
  · show acc.sumCalls +
        (if (chooseSummary client
              (deltaDecision
                (.ok (getChunkMetaT acc.table repository relPath
                  ch.lineStart ch.lineEnd))
                (hashContent ch.content)).1
              (storedSummaryOf
                (.ok (getChunkMetaT acc.table repository relPath
                  ch.lineStart ch.lineEnd)))
              relPath (guessLang relPath) ch.content).2
         then 1 else 0) = acc.sumCalls
    rw [h]
    rfl
  · show acc.embCalls +
        (if (chooseVec client
              (deltaDecision
                (.ok (getChunkMetaT acc.table repository relPath
                  ch.lineStart ch.lineEnd))
                (hashContent ch.content)).2
              (chooseSummary client
                (deltaDecision
                  (.ok (getChunkMetaT acc.table repository relPath
                    ch.lineStart ch.lineEnd))
                  (hashContent ch.content)).1
                (storedSummaryOf
                  (.ok (getChunkMetaT acc.table repository relPath
                    ch.lineStart ch.lineEnd)))
                relPath (guessLang relPath) ch.content).1).2
         then 1 else 0) = acc.embCalls
    rw [h]
    rfl

/-- A file is processed as its single naive chunk. -/
theorem processFile_single (client : ClientM) (repository ref root : String)
    (now : Nat) (acc : RunStats) (path content : String) :
    processFile client repository ref root now acc path content =
      processChunkStep client repository ref (rel root path) now acc
        { content := content, lineStart := 1,
          lineEnd := countNewlines content + 1 } := rfl

set_option maxHeartbeats 2000000 in
/-- C1 amended: re-running the pipeline over an unchanged file with the
same deterministic model client issues no summarize and no embed call in
the second run provided the first run could store its work: the file's
key and id are fresh in the starting table, the first run's chosen
summary is non-empty and its embed succeeded.  The second run's delta
decision on the stored metadata is (false, false).  (Without these
provisos the claim fails: a failed embed or an empty summary in run one
forces the second run to call the model again.) -/
theorem second_run_makes_no_model_calls
    (client : ClientM) (repository ref root : String) (n1 n2 : Nat)
    (st : Table) (path content : String)
    (hclean : ∀ r ∈ st,
      metaKeyMatches repository (rel root path) 1 (countNewlines content + 1) r
        = false)
    (hid : ∀ r ∈ st,
      (r.id == chunkID (rel root path) 1 (countNewlines content + 1)) = false)
    (hsum : (processWithMeta client repository ref (rel root path)
      { content := content, lineStart := 1, lineEnd := countNewlines content + 1 }
      (.ok (getChunkMetaT st repository (rel root path) 1
        (countNewlines content + 1)))).chunk.summary ≠ "")
    (hvec : (processWithMeta client repository ref (rel root path)
      { content := content, lineStart := 1, lineEnd := countNewlines content + 1 }
      (.ok (getChunkMetaT st repository (rel root path) 1
        (countNewlines content + 1)))).vec.isSome = true) :
    deltaDecision
        (.ok (getChunkMetaT
          (processFile client repository ref root n1 ⟨st, 0, 0⟩ path content).table
          repository (rel root path) 1 (countNewlines content + 1)))
        (hashContent content) = (false, false) ∧
    (processFile client repository ref root n2
        ⟨(processFile client repository ref root n1 ⟨st, 0, 0⟩ path content).table,
          0, 0⟩ path content).sumCalls = 0 ∧
    (processFile client repository ref root n2
        ⟨(processFile client repository ref root n1 ⟨st, 0, 0⟩ path content).table,
          0, 0⟩ path content).embCalls = 0 := by
  have hfind1 : st.find?
      (metaKeyMatches repository (rel root path) 1 (countNewlines content + 1))
        = none :=
    List.find?_eq_none.mpr fun r hr => ne_true_of_eq_false (hclean r hr)
  have hfindrow : st.find? (rowKeyMatches
      (processWithMeta client repository ref (rel root path)
        { content := content, lineStart := 1, lineEnd := countNewlines content + 1 }
        (.ok (getChunkMetaT st repository (rel root path) 1
          (countNewlines content + 1)))).chunk) = none :=
    List.find?_eq_none.mpr fun r hr =>
      ne_true_of_eq_false (rowKey_false_of_metaKey_false _ r (hclean r hr))
  have hany : st.any (fun row => row.id ==
      (processWithMeta client repository ref (rel root path)
        { content := content, lineStart := 1, lineEnd := countNewlines content + 1 }
        (.ok (getChunkMetaT st repository (rel root path) 1
          (countNewlines content + 1)))).chunk.id) = false :=
    List.any_eq_false.mpr fun r hr => ne_true_of_eq_false (hid r hr)
  have hup := upsertChunkT_insert_of_fresh n1 st
    (processWithMeta client repository ref (rel root path)
      { content := content, lineStart := 1, lineEnd := countNewlines content + 1 }
      (.ok (getChunkMetaT st repository (rel root path) 1
        (countNewlines content + 1)))).chunk
    (processWithMeta client repository ref (rel root path)
      { content := content, lineStart := 1, lineEnd := countNewlines content + 1 }
      (.ok (getChunkMetaT st repository (rel root path) 1
        (countNewlines content + 1)))).vec
    (processWithMeta client repository ref (rel root path)
      { content := content, lineStart := 1, lineEnd := countNewlines content + 1 }
      (.ok (getChunkMetaT st repository (rel root path) 1
        (countNewlines content + 1)))).hash
    hfindrow hany
  have hrun1t : (processFile client repository ref root n1 ⟨st, 0, 0⟩
      path content).table =
      st ++ [insertRow n1
        (processWithMeta client repository ref (rel root path)
          { content := content, lineStart := 1,
            lineEnd := countNewlines content + 1 }
          (.ok (getChunkMetaT st repository (rel root path) 1
            (countNewlines content + 1)))).chunk
        (processWithMeta client repository ref (rel root path)
          { content := content, lineStart := 1,
            lineEnd := countNewlines content + 1 }
          (.ok (getChunkMetaT st repository (rel root path) 1
            (countNewlines content + 1)))).vec
        (processWithMeta client repository ref (rel root path)
          { content := content, lineStart := 1,
            lineEnd := countNewlines content + 1 }
          (.ok (getChunkMetaT st repository (rel root path) 1
            (countNewlines content + 1)))).hash] := by
    rw [processFile_single]
    show (match upsertChunkT n1 st
        (processWithMeta client repository ref (rel root path)
          { content := content, lineStart := 1,
            lineEnd := countNewlines content + 1 }
          (.ok (getChunkMetaT st repository (rel root path) 1
            (countNewlines content + 1)))).chunk
        (processWithMeta client repository ref (rel root path)
          { content := content, lineStart := 1,
            lineEnd := countNewlines content + 1 }
          (.ok (getChunkMetaT st repository (rel root path) 1
            (countNewlines content + 1)))).vec
        (processWithMeta client repository ref (rel root path)
          { content := content, lineStart := 1,
            lineEnd := countNewlines content + 1 }
          (.ok (getChunkMetaT st repository (rel root path) 1
            (countNewlines content + 1)))).hash with
      | .ok t => t
      | .error _ => st) = _
    rw [hup]
  have hmeta2 := getChunkMetaT_after_insert st repository (rel root path) 1
    (countNewlines content + 1) n1
    (processWithMeta client repository ref (rel root path)
      { content := content, lineStart := 1, lineEnd := countNewlines content + 1 }
      (.ok (getChunkMetaT st repository (rel root path) 1
        (countNewlines content + 1)))).chunk
    (processWithMeta client repository ref (rel root path)
      { content := content, lineStart := 1, lineEnd := countNewlines content + 1 }
      (.ok (getChunkMetaT st repository (rel root path) 1
        (countNewlines content + 1)))).vec
    (processWithMeta client repository ref (rel root path)
      { content := content, lineStart := 1, lineEnd := countNewlines content + 1 }
      (.ok (getChunkMetaT st repository (rel root path) 1
        (countNewlines content + 1)))).hash
    hfind1 rfl rfl rfl rfl
  have hd2 : deltaDecision
      (.ok (getChunkMetaT
        (st ++ [insertRow n1
          (processWithMeta client repository ref (rel root path)
            { content := content, lineStart := 1,
              lineEnd := countNewlines content + 1 }
            (.ok (getChunkMetaT st repository (rel root path) 1
              (countNewlines content + 1)))).chunk
          (processWithMeta client repository ref (rel root path)
            { content := content, lineStart := 1,
              lineEnd := countNewlines content + 1 }
            (.ok (getChunkMetaT st repository (rel root path) 1
              (countNewlines content + 1)))).vec
          (processWithMeta client repository ref (rel root path)
            { content := content, lineStart := 1,
              lineEnd := countNewlines content + 1 }
            (.ok (getChunkMetaT st repository (rel root path) 1
              (countNewlines content + 1)))).hash])
        repository (rel root path) 1 (countNewlines content + 1)))
      (hashContent content) = (false, false) := by
    rw [hmeta2]
    exact deltaDecision_false_false _ _ rfl hsum hvec
  refine ⟨?_, ?_, ?_⟩
  · rw [hrun1t, hmeta2]
    exact deltaDecision_false_false _ _ rfl hsum hvec
  · rw [hrun1t, processFile_single]
    exact (processChunkStep_no_calls client repository ref (rel root path) n2
      _ _ hd2).1
  · rw [hrun1t, processFile_single]
    exact (processChunkStep_no_calls client repository ref (rel root path) n2
      _ _ hd2).2

set_option maxRecDepth 1000000 in
/-- C1 witness: the amended idempotence theorem at the stub client and a
concrete one-file tree: the second run decides (false, false). -/
theorem second_run_makes_no_model_calls_witness :
    deltaDecision
        (.ok (getChunkMetaT
          (processFile (stubClient 3) "r" "main" "" 0 ⟨[], 0, 0⟩ "a.txt"
            "hello").table "r" (rel "" "a.txt") 1
          (countNewlines "hello" + 1)))
        (hashContent "hello") = (false, false) ∧
    (processFile (stubClient 3) "r" "main" "" 1
        ⟨(processFile (stubClient 3) "r" "main" "" 0 ⟨[], 0, 0⟩ "a.txt"
          "hello").table, 0, 0⟩ "a.txt" "hello").sumCalls = 0 ∧
    (processFile (stubClient 3) "r" "main" "" 1
        ⟨(processFile (stubClient 3) "r" "main" "" 0 ⟨[], 0, 0⟩ "a.txt"
          "hello").table, 0, 0⟩ "a.txt" "hello").embCalls = 0 :=
  second_run_makes_no_model_calls (stubClient 3) "r" "main" "" 0 1 [] "a.txt"
    "hello" (fun r hr => absurd hr (List.not_mem_nil r))
    (fun r hr => absurd hr (List.not_mem_nil r)) (by decide) (by decide)

end RepoSearch
